import Mathlib

/-!
Verification development for the `pdf_translate` repository.

This file gives a shallow embedding, in Lean 4, of the parts of the code that
the specification's testable claims are about:

* the job scheduler of `app/services/translation_service.py`
  (`schedule_translation`, `drain_queue`, `remove_from_queue`, `cancel_task`)
  and the queue-position computation of `app/routers/tasks.py`;
* the layout-box containment filter, the image-region translation pipeline,
  the font-fit binary search, and the line/paragraph composer of
  `core/image_translate.py`.

Python strings are modelled as `List Char`, Python `int` as `Int`/`Nat`, and
Python `float` as `Rat` (the code only does exact arithmetic with small
constants such as `1.05`, `1.2`, `0.8`, `0.3`, so rational arithmetic is a
faithful model of the float computations the claims are about).  External
collaborators (layout detector, OCR engine, translator, OpenCV inpainting,
font rendering) are modelled as abstract oracle functions, as the spec treats
them as abstract capabilities.
-/

namespace PdfTranslate

/-! ## Scheduler model (`app/services/translation_service.py`)

`active_tasks` is a dict keyed by task id; we model its key list.
`pending_queue` holds `(created_at, task_id, config)` triples; the config is
irrelevant to every claim, so an entry is modelled as `(created_at, task_id)`.
`active_translations` records each task's status; we model the status map as
an association list, and `save_or_update_history` as part of that map. -/

/-- Task status values (`status` field semantics documented in the service). -/
inductive St where
  | queued | running | completed | error | cancelled | invalid
  deriving DecidableEq, Repr

/-- A pending-queue entry `(created_at, task_id)` (config omitted). -/
abbrev QEntry := Nat × Nat

/-- Scheduler shared state: `active_tasks` key list, `pending_queue`, and the
recorded statuses of `active_translations`. -/
structure SchedState where
  active : List Nat
  queue : List QEntry
  hist : List (Nat × St)
  deriving DecidableEq, Repr

/-- `active_translations[tid].update({"status": v})` — updates the recorded
status only when the task is present in the map (the code guards with
`if task_id in active_translations`); never inserts. -/
def updateStatus (m : List (Nat × St)) (tid : Nat) (v : St) : List (Nat × St) :=
  m.map (fun p => if p.1 = tid then (tid, v) else p)

/-- `_start_task`: `active_tasks[task_id] = task` — dict assignment: the key
set gains `tid` unless it is already present. -/
def startTask (tid : Nat) (act : List Nat) : List Nat :=
  if act.contains tid then act else act ++ [tid]

/-- `_running_count`: `len(active_tasks)`. -/
def runningCount (s : SchedState) : Nat := s.active.length

/-- Queue ordering used by `pending_queue.sort(key=lambda x: x[0])` and by
`sorted(pending_queue, key=lambda x: x[0])`: ascending `created_at`. -/
def entryLE (a b : QEntry) : Prop := a.1 ≤ b.1

instance : DecidableRel entryLE := fun a b => inferInstanceAs (Decidable (a.1 ≤ b.1))

instance : IsTotal QEntry entryLE := ⟨fun a b => Nat.le_total a.1 b.1⟩

instance : IsTrans QEntry entryLE := ⟨fun _ _ _ h1 h2 => Nat.le_trans h1 h2⟩

/-- The `while pending_queue and _running_count() < MAX_CONCURRENT` loop of
`drain_queue`, operating on the already-sorted queue: pops the head, marks it
running, starts it, until the cap is reached or the queue empties. -/
def drainLoop (cap : Nat) : List QEntry → List Nat → List (Nat × St) → SchedState
  | [], act, st => ⟨act, [], st⟩
  | e :: rest, act, st =>
    if act.length < cap then
      drainLoop cap rest (startTask e.2 act) (updateStatus st e.2 .running)
    else
      ⟨act, e :: rest, st⟩

/-- `drain_queue`: returns immediately on an empty queue; otherwise sorts the
queue ascending by `created_at` (in place — the sorted order persists) and
starts queued jobs while the running count is below the cap. -/
def drainQueue (cap : Nat) (s : SchedState) : SchedState :=
  if s.queue = [] then s
  else drainLoop cap (s.queue.insertionSort entryLE) s.active s.hist

/-- `schedule_translation`: starts the job immediately (status `running`)
when the running count is strictly below the cap, otherwise appends
`(created_at, task_id)` to the pending queue (status `queued`).  Returns the
final status together with the new state. -/
def scheduleTranslation (cap : Nat) (tid created : Nat) (s : SchedState) : St × SchedState :=
  if s.active.length < cap then
    (.running, ⟨startTask tid s.active, s.queue, updateStatus s.hist tid .running⟩)
  else
    (.queued, ⟨s.active, s.queue ++ [(created, tid)], updateStatus s.hist tid .queued⟩)

/-- The `finally` path of `run_translation`: the finished/cancelled/failed
job's entry is popped from `active_tasks` and `drain_queue` is invoked,
releasing the concurrency slot. -/
def finishTask (cap : Nat) (tid : Nat) (s : SchedState) : SchedState :=
  drainQueue cap ⟨s.active.erase tid, s.queue, s.hist⟩

/-- `cancel_task`: if the job has a running task, requests cancellation,
drains the queue and returns `True`; otherwise returns `False` without
touching any state.  (The status transition to `cancelled` happens later, in
`run_translation`'s `CancelledError` handler, modelled by `finishTask`.) -/
def cancelTask (cap : Nat) (tid : Nat) (s : SchedState) : Bool × SchedState :=
  if s.active.contains tid then (true, drainQueue cap s) else (false, s)

/-- `remove_from_queue`: filters out entries whose task id matches; returns
whether anything was removed. -/
def removeFromQueue (tid : Nat) (s : SchedState) : Bool × SchedState :=
  (s.queue.any (fun e => e.2 = tid),
   ⟨s.active, s.queue.filter (fun e => e.2 ≠ tid), s.hist⟩)

/-- One scheduler operation, as invokable from the service layer. -/
inductive SchedOp where
  | schedule (tid created : Nat)
  | drain
  | finish (tid : Nat)
  | cancel (tid : Nat)
  | removeQ (tid : Nat)
  deriving Repr

/-- Applying one scheduler operation to the shared state. -/
def schedStep (cap : Nat) (s : SchedState) : SchedOp → SchedState
  | .schedule tid created => (scheduleTranslation cap tid created s).2
  | .drain => drainQueue cap s
  | .finish tid => finishTask cap tid s
  | .cancel tid => (cancelTask cap tid s).2
  | .removeQ tid => (removeFromQueue tid s).2

/-- Running a sequence of scheduler operations from the process-start state
(no running job, empty queue, empty history). -/
def runSched (cap : Nat) (ops : List SchedOp) : SchedState :=
  ops.foldl (schedStep cap) ⟨[], [], []⟩

theorem startTask_length_le (tid : Nat) (act : List Nat) :
    (startTask tid act).length ≤ act.length + 1 := by
  unfold startTask
  split
  · exact Nat.le_succ _
  · simp

theorem drainLoop_active_le (cap : Nat) (q : List QEntry) (act : List Nat)
    (st : List (Nat × St)) (h : act.length ≤ cap) :
    (drainLoop cap q act st).active.length ≤ cap := by
  induction q generalizing act st with
  | nil => exact h
  | cons e rest ih =>
    unfold drainLoop
    split
    · rename_i hlt
      exact ih _ _ (Nat.le_trans (startTask_length_le e.2 act) hlt)
    · exact h

theorem drainQueue_active_le (cap : Nat) (s : SchedState) (h : s.active.length ≤ cap) :
    (drainQueue cap s).active.length ≤ cap := by
  unfold drainQueue
  split
  · exact h
  · exact drainLoop_active_le cap _ _ _ h

theorem schedStep_active_le (cap : Nat) (s : SchedState) (op : SchedOp)
    (h : s.active.length ≤ cap) : (schedStep cap s op).active.length ≤ cap := by
  cases op with
  | schedule tid created =>
    simp only [schedStep, scheduleTranslation]
    split
    · rename_i hlt
      exact Nat.le_trans (startTask_length_le tid s.active) hlt
    · exact h
  | drain => exact drainQueue_active_le cap s h
  | finish tid =>
    refine drainQueue_active_le cap _ (Nat.le_trans ?_ h)
    exact (List.erase_sublist tid s.active).length_le
  | cancel tid =>
    simp only [schedStep, cancelTask]
    split
    · exact drainQueue_active_le cap s h
    · exact h
  | removeQ tid => exact h

theorem foldl_schedStep_active_le (cap : Nat) (ops : List SchedOp) (s : SchedState)
    (h : s.active.length ≤ cap) :
    (ops.foldl (schedStep cap) s).active.length ≤ cap := by
  induction ops generalizing s with
  | nil => exact h
  | cons op rest ih => exact ih _ (schedStep_active_le cap s op h)

/-- C1: along every operation sequence, the number of entries of
`active_tasks` stays at or below the configured concurrency cap. -/
theorem scheduler_cap_invariant (cap : Nat) (ops : List SchedOp) :
    runningCount (runSched cap ops) ≤ cap := by
  exact foldl_schedStep_active_le cap ops _ (Nat.zero_le cap)

/-- C10: `cancel_task` on a task that has no running asyncio task returns
`False` and leaves the entire scheduler state — pending queue and recorded
statuses included — unchanged.  In particular it never withdraws a queued
entry itself. -/
theorem cancel_not_running_noop (cap : Nat) (s : SchedState) (tid : Nat)
    (h : s.active.contains tid = false) :
    cancelTask cap tid s = (false, s) := by
  unfold cancelTask
  rw [h]
  simp

/-- Witness for C10: a job that is queued (entry `(5, 7)` in the pending
queue, status `queued`) but not running is not cancelled: the call returns
`False` and the state, queue entry included, is untouched. -/
theorem cancel_not_running_noop_witness :
    cancelTask 1 7 ⟨[3], [(5, 7)], [(7, .queued)]⟩ =
      (false, ⟨[3], [(5, 7)], [(7, .queued)]⟩) :=
  cancel_not_running_noop 1 ⟨[3], [(5, 7)], [(7, .queued)]⟩ 7 (by decide)

/-! ## Queue position (`app/routers/tasks.py`, `list_tasks`)

The router computes `sorted_q = sorted(pending_queue, key=lambda x: x[0])`,
builds `queue_index_map = {tid: idx + 1 for idx, (_, tid, _) in
enumerate(sorted_q)}` (a dict comprehension: a later duplicate task id
overwrites an earlier one) and reports `queue_index_map.get(task_id)` for
queued tasks. -/

/-- `enumerate(sorted_q)` paired into `(task_id, index + 1)` bindings,
starting from index `i`. -/
def buildPosPairs (i : Nat) : List QEntry → List (Nat × Nat)
  | [] => []
  | e :: rest => (e.2, i + 1) :: buildPosPairs (i + 1) rest

/-- Python-dict binding semantics for a list of `(key, value)` pairs: the
LAST binding of a key wins (later comprehension iterations overwrite). -/
def dictGetLast (k : Nat) : List (Nat × Nat) → Option Nat
  | [] => none
  | p :: rest =>
    match dictGetLast k rest with
    | some v => some v
    | none => if p.1 = k then some p.2 else none

/-- The queue position reported by `list_tasks` for a queued task. -/
def listTasksQueuePos (q : List QEntry) (tid : Nat) : Option Nat :=
  dictGetLast tid (buildPosPairs 0 (q.insertionSort entryLE))

theorem buildPosPairs_append (i : Nat) (l1 l2 : List QEntry) :
    buildPosPairs i (l1 ++ l2) = buildPosPairs i l1 ++ buildPosPairs (i + l1.length) l2 := by
  induction l1 generalizing i with
  | nil => simp [buildPosPairs]
  | cons e rest ih =>
    simp only [List.cons_append, buildPosPairs, List.length_cons, List.append_eq, ih]
    have h : i + 1 + rest.length = i + (rest.length + 1) := by omega
    rw [h]

theorem dictGetLast_append_some (k : Nat) (l1 l2 : List (Nat × Nat)) (v : Nat)
    (h : dictGetLast k l2 = some v) :
    dictGetLast k (l1 ++ l2) = some v := by
  induction l1 with
  | nil => simpa
  | cons p rest ih =>
    simp only [List.cons_append, dictGetLast, List.append_eq, ih]

theorem dictGetLast_not_mem (k : Nat) (l : List (Nat × Nat))
    (h : ∀ p ∈ l, p.1 ≠ k) : dictGetLast k l = none := by
  induction l with
  | nil => rfl
  | cons p rest ih =>
    simp only [dictGetLast, ih (fun x hx => h x (List.mem_cons_of_mem p hx))]
    simp [h p (List.mem_cons_self p rest)]

theorem mem_buildPosPairs (i : Nat) (l : List QEntry) (p : Nat × Nat)
    (hp : p ∈ buildPosPairs i l) : ∃ a ∈ l, p.1 = a.2 := by
  induction l generalizing i with
  | nil => simp [buildPosPairs] at hp
  | cons a rest ih =>
    simp only [buildPosPairs, List.mem_cons] at hp
    rcases hp with hp | hp
    · exact ⟨a, List.mem_cons_self a rest, by rw [hp]⟩
    · obtain ⟨b, hb, hpb⟩ := ih _ hp
      exact ⟨b, List.mem_cons_of_mem a hb, hpb⟩

theorem dictGetLast_buildPosPairs_split (i : Nat) (s1 s2 : List QEntry) (e : QEntry)
    (h2 : ∀ p ∈ s2, p.2 ≠ e.2) :
    dictGetLast e.2 (buildPosPairs i (s1 ++ e :: s2)) = some (i + s1.length + 1) := by
  rw [buildPosPairs_append]
  apply dictGetLast_append_some
  have hs2 : dictGetLast e.2 (buildPosPairs (i + s1.length + 1) s2) = none := by
    apply dictGetLast_not_mem
    intro p hp
    obtain ⟨a, ha, hpa⟩ := mem_buildPosPairs _ _ _ hp
    rw [hpa]
    exact h2 a ha
  simp [buildPosPairs, dictGetLast, hs2]

/-- C5 (amended): when the queued entries carry pairwise-distinct
`created_at` values and the job appears exactly once in the queue, the
reported 1-based position equals 1 plus the number of queued entries with
strictly earlier `created_at`. -/
theorem queue_position_distinct (q : List QEntry) (tid c : Nat)
    (hmem : (c, tid) ∈ q)
    (huniq : ∀ p ∈ q, p.2 = tid → p = (c, tid))
    (hkeys : q.Pairwise (fun a b => a.1 ≠ b.1)) :
    listTasksQueuePos q tid = some (1 + q.countP (fun p => decide (p.1 < c))) := by
  have perm : List.Perm (q.insertionSort entryLE) q := List.perm_insertionSort entryLE q
  have sorted : List.Sorted entryLE (q.insertionSort entryLE) :=
    List.sorted_insertionSort entryLE q
  have hmemS : (c, tid) ∈ q.insertionSort entryLE := perm.mem_iff.mpr hmem
  obtain ⟨s1, s2, hsplit⟩ := List.append_of_mem hmemS
  have hkeysS : (q.insertionSort entryLE).Pairwise (fun a b : QEntry => a.1 ≠ b.1) :=
    (perm.pairwise_iff (fun hab => Ne.symm hab)).mpr hkeys
  have sortedP : (s1 ++ (c, tid) :: s2).Pairwise entryLE := by
    rw [← hsplit]; exact sorted
  have keysP : (s1 ++ (c, tid) :: s2).Pairwise (fun a b : QEntry => a.1 ≠ b.1) := by
    rw [← hsplit]; exact hkeysS
  obtain ⟨sort1, sort2, sortAcross⟩ := List.pairwise_append.mp sortedP
  obtain ⟨keys1, keys2, keysAcross⟩ := List.pairwise_append.mp keysP
  -- every entry strictly before the split has a strictly smaller created_at
  have hlt1 : ∀ a ∈ s1, a.1 < c := by
    intro a ha
    have h1 : a.1 ≤ c := sortAcross a ha (c, tid) (List.mem_cons_self _ _)
    have h2 : a.1 ≠ c := keysAcross a ha (c, tid) (List.mem_cons_self _ _)
    omega
  -- every entry strictly after the split has created_at at least c
  have hge2 : ∀ b ∈ s2, ¬ b.1 < c := by
    intro b hb
    have h1 : entryLE (c, tid) b := (List.pairwise_cons.mp sort2).1 b hb
    exact fun hlt => absurd h1 (by simpa [entryLE] using Nat.not_le.mpr hlt)
  -- the task id does not occur after the split
  have h2 : ∀ p ∈ s2, p.2 ≠ tid := by
    intro p hp hptid
    have hpq : p ∈ q := perm.mem_iff.mp (by rw [hsplit]; simp [hp])
    have := huniq p hpq hptid
    subst this
    exact (List.pairwise_cons.mp keys2).1 (c, tid) hp rfl
  have hpos : listTasksQueuePos q tid = some (s1.length + 1) := by
    unfold listTasksQueuePos
    rw [hsplit]
    simpa using dictGetLast_buildPosPairs_split 0 s1 s2 (c, tid) h2
  have hcount : q.countP (fun p => decide (p.1 < c)) = s1.length := by
    have hc : (q.insertionSort entryLE).countP (fun p => decide (p.1 < c)) =
        q.countP (fun p => decide (p.1 < c)) := perm.countP_eq _
    rw [← hc, hsplit, List.countP_append, List.countP_cons]
    have c1 : s1.countP (fun p => decide (p.1 < c)) = s1.length :=
      List.countP_eq_length.mpr (fun a ha => by simpa using hlt1 a ha)
    have c2 : s2.countP (fun p => decide (p.1 < c)) = 0 :=
      List.countP_eq_zero.mpr (fun b hb => by simpa using hge2 b hb)
    simp [c1, c2]
  rw [hpos, hcount]
  rw [Nat.add_comm]

/-- Counterexample to C5 as frozen: with two queued entries sharing the same
`created_at` (value 5), the reported position of the second job is 2, while
1 plus the number of entries with strictly earlier `created_at` is 1. -/
theorem queue_position_tie_counterexample :
    listTasksQueuePos [(5, 1), (5, 2)] 2 = some 2 ∧
      1 + List.countP (fun p : QEntry => decide (p.1 < 5)) [(5, 1), (5, 2)] = 1 := by
  constructor
  · rfl
  · rfl

/-- Witness for C5 (amended) at a concrete two-entry queue with distinct
`created_at` values. -/
theorem queue_position_distinct_witness :
    listTasksQueuePos [(3, 10), (7, 20)] 20 =
      some (1 + List.countP (fun p : QEntry => decide (p.1 < 7)) [(3, 10), (7, 20)]) :=
  queue_position_distinct [(3, 10), (7, 20)] 20 7 (by decide) (by decide) (by decide)

/-! ## Containment filter (`core/image_translate.py`, `_remove_fully_contained_boxes`)

Detector boxes carry float coordinates (`box.xyxy`) and a class id
(`box.cls`); coordinates are modelled as rationals. -/

/-- A layout-detector box: `xyxy` coordinates plus class id. -/
structure DetBox where
  x0 : Rat
  y0 : Rat
  x1 : Rat
  y1 : Rat
  cls : Nat
  deriving DecidableEq, Repr

/-- `_area`: `max(0.0, (x1 - x0) * (y1 - y0))`. -/
def boxArea (b : DetBox) : Rat := max 0 ((b.x1 - b.x0) * (b.y1 - b.y0))

/-- `_contains(outer, inner)`: all four edges of `inner` lie within
`tolerance` of the boundary of `outer`. -/
def boxContains (tol : Rat) (outer inner : DetBox) : Bool :=
  decide (outer.x0 - tol ≤ inner.x0 ∧ outer.y0 - tol ≤ inner.y0 ∧
    inner.x1 ≤ outer.x1 + tol ∧ inner.y1 ≤ outer.y1 + tol)

/-- Sort key for `sorted(boxes, key=_area, reverse=True)`: descending area. -/
def areaGE (a b : DetBox) : Prop := boxArea b ≤ boxArea a

instance : DecidableRel areaGE := fun a b => inferInstanceAs (Decidable (boxArea b ≤ boxArea a))

instance : IsTotal DetBox areaGE := ⟨fun a b => le_total (boxArea b) (boxArea a)⟩

instance : IsTrans DetBox areaGE := ⟨fun _ _ _ h1 h2 => le_trans h2 h1⟩

/-- The main loop of `_remove_fully_contained_boxes`: keep a box unless some
already-kept box contains it within the tolerance. -/
def keepLoop (tol : Rat) (kept : List DetBox) : List DetBox → List DetBox
  | [] => kept
  | b :: rest =>
    if kept.any (fun k => boxContains tol k b) then keepLoop tol kept rest
    else keepLoop tol (kept ++ [b]) rest

/-- `_remove_fully_contained_boxes(boxes, tolerance)`: sort by area
descending (Python's sort is stable; `insertionSort` with a non-strict key
matches that order) and keep each box not contained in a previously kept
one. -/
def removeFullyContainedBoxes (tol : Rat) (boxes : List DetBox) : List DetBox :=
  keepLoop tol [] (boxes.insertionSort areaGE)

theorem mem_keepLoop_of_mem_acc (tol : Rat) (l acc : List DetBox) (a : DetBox)
    (ha : a ∈ acc) : a ∈ keepLoop tol acc l := by
  induction l generalizing acc with
  | nil => exact ha
  | cons b rest ih =>
    unfold keepLoop
    split
    · exact ih acc ha
    · exact ih (acc ++ [b]) (List.mem_append_left _ ha)

theorem keepLoop_discard_explained (tol : Rat) (l : List DetBox) :
    ∀ acc b, l.Pairwise areaGE →
      (∀ a ∈ acc, ∀ x ∈ l, boxArea x ≤ boxArea a) →
      b ∈ l → b ∉ keepLoop tol acc l →
      ∃ k ∈ keepLoop tol acc l, boxArea b ≤ boxArea k ∧ boxContains tol k b = true := by
  induction l with
  | nil => intro acc b _ _ hb; simp at hb
  | cons h rest ih =>
    intro acc b hpair hacc hb hnot
    have hpairRest : rest.Pairwise areaGE := (List.pairwise_cons.mp hpair).2
    unfold keepLoop at hnot ⊢
    by_cases hany : acc.any (fun k => boxContains tol k h) = true
    · rw [if_pos hany] at hnot ⊢
      rcases List.mem_cons.mp hb with hbh | hbr
      · subst hbh
        obtain ⟨a, haacc, hcont⟩ := List.any_eq_true.mp hany
        refine ⟨a, mem_keepLoop_of_mem_acc tol rest acc a haacc, ?_, hcont⟩
        exact hacc a haacc b (List.mem_cons_self _ _)
      · exact ih acc b hpairRest
          (fun a ha x hx => hacc a ha x (List.mem_cons_of_mem h hx)) hbr hnot
    · rw [if_neg hany] at hnot ⊢
      rcases List.mem_cons.mp hb with hbh | hbr
      · subst hbh
        exact absurd (mem_keepLoop_of_mem_acc tol rest (acc ++ [b]) b
          (List.mem_append_right _ (List.mem_singleton_self b))) hnot
      · refine ih (acc ++ [h]) b hpairRest ?_ hbr hnot
        intro a ha x hx
        rcases List.mem_append.mp ha with ha1 | ha2
        · exact hacc a ha1 x (List.mem_cons_of_mem h hx)
        · rw [List.mem_singleton.mp ha2]
          exact (List.pairwise_cons.mp hpair).1 x hx

theorem keepLoop_pairwise_not_contains (tol : Rat) (l : List DetBox) :
    ∀ acc, acc.Pairwise (fun a b => boxContains tol a b = false) →
      (keepLoop tol acc l).Pairwise (fun a b => boxContains tol a b = false) := by
  induction l with
  | nil => intro acc hacc; exact hacc
  | cons h rest ih =>
    intro acc hacc
    unfold keepLoop
    split
    · exact ih acc hacc
    · rename_i hany
      refine ih (acc ++ [h]) ?_
      rw [List.pairwise_append]
      refine ⟨hacc, List.pairwise_singleton _ h, ?_⟩
      intro a ha b hb
      rw [List.mem_singleton.mp hb]
      have := List.any_eq_false.mp (Bool.not_eq_true _ ▸ hany) a ha
      simpa using this

/-- C2 (amended): the containment filter discards a box only when some
already-kept box of AT LEAST equal area contains all four of its edges
within the tolerance, and among the kept boxes no two mutually contain each
other within the tolerance. -/
theorem containment_filter_correct (tol : Rat) (boxes : List DetBox) :
    (∀ b ∈ boxes, b ∉ removeFullyContainedBoxes tol boxes →
      ∃ k ∈ removeFullyContainedBoxes tol boxes,
        boxArea b ≤ boxArea k ∧ boxContains tol k b = true) ∧
    (removeFullyContainedBoxes tol boxes).Pairwise
      (fun a b => ¬(boxContains tol a b = true ∧ boxContains tol b a = true)) := by
  constructor
  · intro b hb hnot
    have hperm : List.Perm (boxes.insertionSort areaGE) boxes :=
      List.perm_insertionSort areaGE boxes
    have hsorted : (boxes.insertionSort areaGE).Pairwise areaGE :=
      List.sorted_insertionSort areaGE boxes
    exact keepLoop_discard_explained tol (boxes.insertionSort areaGE) [] b hsorted
      (by intro a ha; simp at ha) (hperm.mem_iff.mpr hb) hnot
  · refine (keepLoop_pairwise_not_contains tol (boxes.insertionSort areaGE) []
      List.Pairwise.nil).imp ?_
    intro a b hab hcontra
    rw [hab] at hcontra
    exact Bool.false_ne_true hcontra.1

/-- Counterexample to C2 as frozen: two overlapping boxes of EQUAL area
(100), where the second lies within tolerance 2 inside the first.  The
second box is discarded, yet no kept box of STRICTLY larger area contains
it — the kept container merely has equal area. -/
theorem containment_filter_strict_counterexample :
    (⟨1, 0, 11, 10, 1⟩ : DetBox) ∈ [(⟨0, 0, 10, 10, 1⟩ : DetBox), ⟨1, 0, 11, 10, 1⟩] ∧
    (⟨1, 0, 11, 10, 1⟩ : DetBox) ∉
      removeFullyContainedBoxes 2 [⟨0, 0, 10, 10, 1⟩, ⟨1, 0, 11, 10, 1⟩] ∧
    ∀ k ∈ removeFullyContainedBoxes 2 [(⟨0, 0, 10, 10, 1⟩ : DetBox), ⟨1, 0, 11, 10, 1⟩],
      ¬(boxArea (⟨1, 0, 11, 10, 1⟩ : DetBox) < boxArea k ∧
        boxContains 2 k ⟨1, 0, 11, 10, 1⟩ = true) := by
  have hres : removeFullyContainedBoxes 2
      [(⟨0, 0, 10, 10, 1⟩ : DetBox), ⟨1, 0, 11, 10, 1⟩] = [⟨0, 0, 10, 10, 1⟩] := by
    norm_num [removeFullyContainedBoxes, keepLoop, boxContains, boxArea, areaGE,
      List.insertionSort, List.orderedInsert]
  refine ⟨by simp, ?_, ?_⟩
  · rw [hres]
    simp only [List.mem_singleton]
    intro h
    exact absurd (congrArg DetBox.x0 h) (by norm_num)
  · rw [hres]
    intro k hk
    rw [List.mem_singleton.mp hk]
    intro hcon
    have := hcon.1
    norm_num [boxArea] at this

/-- Witness for C2 (amended): for the equal-area pair above, the discarded
box is indeed covered by a kept box of at-least-equal area. -/
theorem containment_filter_correct_witness :
    ∃ k ∈ removeFullyContainedBoxes 2 [(⟨0, 0, 10, 10, 1⟩ : DetBox), ⟨1, 0, 11, 10, 1⟩],
      boxArea (⟨1, 0, 11, 10, 1⟩ : DetBox) ≤ boxArea k ∧
      boxContains 2 k ⟨1, 0, 11, 10, 1⟩ = true :=
  (containment_filter_correct 2 [⟨0, 0, 10, 10, 1⟩, ⟨1, 0, 11, 10, 1⟩]).1
    ⟨1, 0, 11, 10, 1⟩ (by simp)
    (by
      have hres : removeFullyContainedBoxes 2
          [(⟨0, 0, 10, 10, 1⟩ : DetBox), ⟨1, 0, 11, 10, 1⟩] = [⟨0, 0, 10, 10, 1⟩] := by
        norm_num [removeFullyContainedBoxes, keepLoop, boxContains, boxArea, areaGE,
          List.insertionSort, List.orderedInsert]
      rw [hres]
      simp only [List.mem_singleton]
      intro h
      exact absurd (congrArg DetBox.x0 h) (by norm_num))

/-! ## Font-fit engine (`core/image_translate.py`, `calculate_auto_font_size`)

`get_font` is modelled as always succeeding (font loading is external and
irrelevant to the selected size); the `try`/`except` around it therefore
never takes the failure path.  The `while low <= high` binary search is
written with an explicit fuel argument `maxS + 1 - minS`, which bounds the
iteration count of the real loop (each iteration shrinks `high - low` by at
least one), so the fuel never runs out on the modelled executions. -/

/-- Python `int()` applied to a float: truncation toward zero. -/
def pyInt (q : Rat) : Int := if q < 0 then -(Int.floor (-q)) else Int.floor q

/-- `math.ceil(n / c)` for natural `n` and positive natural `c`. -/
def ceilDiv (n c : Nat) : Nat := (n + c - 1) / c

/-- Writing direction parameter of `calculate_auto_font_size`. -/
inductive TextDir where
  | horizontal | vertical
  deriving DecidableEq, Repr

/-- The wrapped-line (or wrapped-column) count of one binary-search probe:
`chars_per_line = max(1, int(A / avg)) if avg > 0 else N` followed by
`lines_needed = math.ceil(N / chars_per_line) if chars_per_line > 0 else N`,
where `A` is the extent along the writing direction. -/
def wrapCount (avg A : Rat) (n : Nat) : Nat :=
  if 0 < (if 0 < avg then max 1 (pyInt (A / avg)) else (n : Int)) then
    ceilDiv n (if 0 < avg then max 1 (pyInt (A / avg)) else (n : Int)).toNat
  else n

/-- The fit test of one binary-search probe: with `c_w = 1.0` and
`l_h = 1.05`, estimate characters per line from the average glyph width
(`mid`), count the wrapped lines, and compare the stacked height
(horizontal) or width (vertical) against the target.  `W`/`H` are the
already-swapped values (the function swaps them once for vertical text). -/
def fitsSize (dir : TextDir) (W H : Rat) (n : Nat) (mid : Nat) : Bool :=
  match dir with
  | .horizontal =>
    decide ((wrapCount ((mid : Rat) * 1) W n : Rat) * (mid : Rat) * (21 / 20 : Rat) ≤ H)
  | .vertical =>
    decide ((wrapCount ((mid : Rat)) H n : Rat) * (mid : Rat) * (21 / 20 : Rat) ≤ W)

/-- The `while low <= high` binary search over candidate sizes, keeping the
largest fitting size in `best`; `if mid == 0: break` included. -/
def sizeLoop (fits : Nat → Bool) : Nat → Nat → Nat → Nat → Nat
  | 0, _, _, best => best
  | fuel + 1, low, high, best =>
    if low ≤ high then
      if (low + high) / 2 = 0 then best
      else if fits ((low + high) / 2) then
        sizeLoop fits fuel ((low + high) / 2 + 1) high ((low + high) / 2)
      else sizeLoop fits fuel low ((low + high) / 2 - 1) best
    else best

/-- `calculate_auto_font_size`: returns the constant 30 for empty or
whitespace-only text or a non-positive rectangle dimension; otherwise binary
searches `[min_size, max_size]` and returns `max(min_size, best_size)`. -/
def calculateAutoFontSize (text : List Char) (bw bh : Int) (dir : TextDir)
    (minS maxS : Nat) (padding : Rat) : Nat :=
  if text.all Char.isWhitespace = true ∨ bw ≤ 0 ∨ bh ≤ 0 then 30
  else
    max minS (sizeLoop (fitsSize dir
      (if dir = .vertical then ((bh : Rat) * padding) else ((bw : Rat) * padding))
      (if dir = .vertical then ((bw : Rat) * padding) else ((bh : Rat) * padding))
      text.length) (maxS + 1 - minS) minS maxS minS)

theorem sizeLoop_le_max (fits : Nat → Bool) (fuel : Nat) :
    ∀ low high best, sizeLoop fits fuel low high best ≤ max best high := by
  induction fuel with
  | zero => intro low high best; exact le_max_left _ _
  | succ fuel ih =>
    intro low high best
    unfold sizeLoop
    split
    · rename_i hlh
      split
      · exact le_max_left _ _
      · split
        · calc sizeLoop fits fuel ((low + high) / 2 + 1) high ((low + high) / 2) ≤
              max ((low + high) / 2) high := ih _ _ _
            _ ≤ max best high := by
              have : (low + high) / 2 ≤ high := by omega
              omega
        · calc sizeLoop fits fuel low ((low + high) / 2 - 1) best ≤
              max best ((low + high) / 2 - 1) := ih _ _ _
            _ ≤ max best high := by
              have : (low + high) / 2 ≤ high := by omega
              omega
    · exact le_max_left _ _

theorem best_le_sizeLoop (fits : Nat → Bool) (fuel : Nat) :
    ∀ low high best, best ≤ low → best ≤ sizeLoop fits fuel low high best := by
  induction fuel with
  | zero => intro low high best _; exact le_refl _
  | succ fuel ih =>
    intro low high best hbl
    unfold sizeLoop
    split
    · rename_i hlh
      split
      · exact le_refl _
      · split
        · have hmid : low ≤ (low + high) / 2 := by omega
          calc best ≤ (low + high) / 2 := le_trans hbl hmid
            _ ≤ sizeLoop fits fuel ((low + high) / 2 + 1) high ((low + high) / 2) :=
              ih _ _ _ (Nat.le_succ _)
        · exact ih _ _ _ hbl
    · exact le_refl _

theorem sizeLoop_mono_pred (f g : Nat → Bool) (hmono : ∀ m, f m = true → g m = true)
    (fuel : Nat) : ∀ low high best, best ≤ low →
      sizeLoop f fuel low high best ≤ sizeLoop g fuel low high best := by
  induction fuel with
  | zero => intro low high best _; exact le_refl _
  | succ fuel ih =>
    intro low high best hbl
    unfold sizeLoop
    split
    · rename_i hlh
      split
      · exact le_refl _
      · rename_i hmid0
        by_cases hf : f ((low + high) / 2) = true
        · rw [if_pos hf, if_pos (hmono _ hf)]
          exact ih _ _ _ (Nat.le_succ _)
        · rw [if_neg hf]
          by_cases hg : g ((low + high) / 2) = true
          · rw [if_pos hg]
            have hmid : low ≤ (low + high) / 2 := by omega
            calc sizeLoop f fuel low ((low + high) / 2 - 1) best ≤
                max best ((low + high) / 2 - 1) := sizeLoop_le_max f fuel _ _ _
              _ ≤ (low + high) / 2 := by omega
              _ ≤ sizeLoop g fuel ((low + high) / 2 + 1) high ((low + high) / 2) :=
                best_le_sizeLoop g fuel _ _ _ (Nat.le_succ _)
          · rw [if_neg hg]
            exact ih _ _ _ hbl
    · exact le_refl _

theorem pyInt_mono {a b : Rat} (h : a ≤ b) : pyInt a ≤ pyInt b := by
  unfold pyInt
  by_cases ha : a < 0
  · rw [if_pos ha]
    by_cases hb : b < 0
    · rw [if_pos hb]
      have : Int.floor (-b) ≤ Int.floor (-a) := Int.floor_le_floor (by linarith)
      omega
    · rw [if_neg hb]
      have h1 : (0 : Int) ≤ Int.floor (-a) := Int.floor_nonneg.mpr (by linarith)
      have h2 : (0 : Int) ≤ Int.floor b := Int.floor_nonneg.mpr (by linarith)
      omega
  · rw [if_neg ha, if_neg (by intro hb; exact ha (lt_of_le_of_lt h hb))]
    exact Int.floor_le_floor h

theorem ceilDiv_antitone (n : Nat) {c1 c2 : Nat} (h1 : 1 ≤ c1) (hc : c1 ≤ c2) :
    ceilDiv n c2 ≤ ceilDiv n c1 := by
  unfold ceilDiv
  have hK := Nat.div_add_mod (n + c1 - 1) c1
  have hr : (n + c1 - 1) % c1 < c1 := Nat.mod_lt _ (by omega)
  have hn : n ≤ c1 * ((n + c1 - 1) / c1) := by omega
  have hmul : c1 * ((n + c1 - 1) / c1) ≤ c2 * ((n + c1 - 1) / c1) :=
    Nat.mul_le_mul_right _ hc
  have : (n + c2 - 1) / c2 < (n + c1 - 1) / c1 + 1 := by
    rw [Nat.div_lt_iff_lt_mul (by omega : 0 < c2)]
    have : ((n + c1 - 1) / c1 + 1) * c2 = c2 * ((n + c1 - 1) / c1) + c2 := by ring
    omega
  omega

theorem wrapCount_antitone (avg : Rat) {A1 A2 : Rat} (hA : A1 ≤ A2) (n : Nat) :
    wrapCount avg A2 n ≤ wrapCount avg A1 n := by
  unfold wrapCount
  by_cases havg : (0 : Rat) < avg
  · simp only [if_pos havg]
    have hdiv : A1 / avg ≤ A2 / avg := (div_le_div_iff_of_pos_right havg).mpr hA
    have hpy : pyInt (A1 / avg) ≤ pyInt (A2 / avg) := pyInt_mono hdiv
    have hcle : max 1 (pyInt (A1 / avg)) ≤ max 1 (pyInt (A2 / avg)) := by omega
    have h1 : (1 : Int) ≤ max 1 (pyInt (A1 / avg)) := le_max_left _ _
    rw [if_pos (by omega : (0 : Int) < max 1 (pyInt (A2 / avg))),
      if_pos (by omega : (0 : Int) < max 1 (pyInt (A1 / avg)))]
    exact ceilDiv_antitone n (by omega) (by omega)
  · simp only [if_neg havg]
    exact le_refl _

theorem fitsSize_mono (dir : TextDir) (n : Nat) {W1 H1 W2 H2 : Rat}
    (hW : W1 ≤ W2) (hH : H1 ≤ H2) (m : Nat) (h : fitsSize dir W1 H1 n m = true) :
    fitsSize dir W2 H2 n m = true := by
  cases dir with
  | horizontal =>
    simp only [fitsSize, decide_eq_true_eq] at h ⊢
    have hw : wrapCount ((m : Rat) * 1) W2 n ≤ wrapCount ((m : Rat) * 1) W1 n :=
      wrapCount_antitone _ hW n
    have hcast : ((wrapCount ((m : Rat) * 1) W2 n : Rat)) ≤
        ((wrapCount ((m : Rat) * 1) W1 n : Rat)) := Nat.cast_le.mpr hw
    calc (wrapCount ((m : Rat) * 1) W2 n : Rat) * (m : Rat) * (21 / 20 : Rat) ≤
        (wrapCount ((m : Rat) * 1) W1 n : Rat) * (m : Rat) * (21 / 20 : Rat) := by
          have hm : (0 : Rat) ≤ (m : Rat) := Nat.cast_nonneg m
          have hr : (0 : Rat) ≤ 21 / 20 := by norm_num
          exact mul_le_mul_of_nonneg_right (mul_le_mul_of_nonneg_right hcast hm) hr
      _ ≤ H1 := h
      _ ≤ H2 := hH
  | vertical =>
    simp only [fitsSize, decide_eq_true_eq] at h ⊢
    have hw : wrapCount ((m : Rat)) H2 n ≤ wrapCount ((m : Rat)) H1 n :=
      wrapCount_antitone _ hH n
    have hcast : ((wrapCount ((m : Rat)) H2 n : Rat)) ≤
        ((wrapCount ((m : Rat)) H1 n : Rat)) := Nat.cast_le.mpr hw
    calc (wrapCount ((m : Rat)) H2 n : Rat) * (m : Rat) * (21 / 20 : Rat) ≤
        (wrapCount ((m : Rat)) H1 n : Rat) * (m : Rat) * (21 / 20 : Rat) := by
          have hm : (0 : Rat) ≤ (m : Rat) := Nat.cast_nonneg m
          have hr : (0 : Rat) ≤ 21 / 20 := by norm_num
          exact mul_le_mul_of_nonneg_right (mul_le_mul_of_nonneg_right hcast hm) hr
      _ ≤ W1 := h
      _ ≤ W2 := hW

/-- Truncation of a nonnegative rational bracketed by an integer evaluates to
that integer (used to evaluate `int(W / avg_char_width)` on concrete data). -/
theorem pyInt_eval_nonneg {q : Rat} {z : Int} (h0 : 0 ≤ z) (h1 : (z : Rat) ≤ q)
    (h2 : q < z + 1) : pyInt q = z := by
  unfold pyInt
  rw [if_neg (by
    push_neg
    calc (0 : Rat) ≤ (z : Rat) := by exact_mod_cast h0
      _ ≤ q := h1)]
  exact Int.floor_eq_iff.mpr ⟨h1, by exact_mod_cast h2⟩

/-- C6 (amended): for fixed text, direction and size bounds, with positive
rectangle dimensions and a nonnegative padding ratio, enlarging the
rectangle in BOTH dimensions never decreases the selected font size. -/
theorem font_size_mono_dims (text : List Char) (dir : TextDir)
    (bw1 bh1 bw2 bh2 : Int) (minS maxS : Nat) (padding : Rat)
    (hp : 0 ≤ padding) (h1 : 0 < bw1) (h2 : 0 < bh1)
    (hw : bw1 ≤ bw2) (hh : bh1 ≤ bh2) :
    calculateAutoFontSize text bw1 bh1 dir minS maxS padding ≤
      calculateAutoFontSize text bw2 bh2 dir minS maxS padding := by
  unfold calculateAutoFontSize
  by_cases htext : text.all Char.isWhitespace = true
  · rw [if_pos (Or.inl htext), if_pos (Or.inl htext)]
  · have hg1 : ¬(text.all Char.isWhitespace = true ∨ bw1 ≤ 0 ∨ bh1 ≤ 0) := by
      push_neg
      exact ⟨htext, by omega, by omega⟩
    have hg2 : ¬(text.all Char.isWhitespace = true ∨ bw2 ≤ 0 ∨ bh2 ≤ 0) := by
      push_neg
      exact ⟨htext, by omega, by omega⟩
    rw [if_neg hg1, if_neg hg2]
    have hwr : ((bw1 : Rat)) * padding ≤ ((bw2 : Rat)) * padding :=
      mul_le_mul_of_nonneg_right (by exact_mod_cast hw) hp
    have hhr : ((bh1 : Rat)) * padding ≤ ((bh2 : Rat)) * padding :=
      mul_le_mul_of_nonneg_right (by exact_mod_cast hh) hp
    refine max_le_max (le_refl minS) ?_
    cases dir with
    | horizontal =>
      simp only [reduceCtorEq, if_false]
      exact sizeLoop_mono_pred _ _
        (fun m hm => fitsSize_mono .horizontal text.length hwr hhr m hm) _ _ _ _ (le_refl _)
    | vertical =>
      simp only [if_true]
      exact sizeLoop_mono_pred _ _
        (fun m hm => fitsSize_mono .vertical text.length hhr hwr m hm) _ _ _ _ (le_refl _)

theorem font_size_eval_40_40 :
    calculateAutoFontSize [Char.ofNat 97] 40 40 .horizontal 12 60 1 = 38 := by
  have f36 : fitsSize .horizontal 40 40 1 36 = true := by
    unfold fitsSize wrapCount
    rw [pyInt_eval_nonneg (show (0 : Int) ≤ 1 by norm_num)
      (show ((1 : Int) : Rat) ≤ 40 / ((36 : Nat) * 1) by norm_num) (by norm_num)]
    norm_num [ceilDiv]
  have f48 : fitsSize .horizontal 40 40 1 48 = false := by
    unfold fitsSize wrapCount
    rw [pyInt_eval_nonneg (show (0 : Int) ≤ 0 by norm_num)
      (show ((0 : Int) : Rat) ≤ 40 / ((48 : Nat) * 1) by norm_num) (by norm_num)]
    norm_num [ceilDiv]
  have f42 : fitsSize .horizontal 40 40 1 42 = false := by
    unfold fitsSize wrapCount
    rw [pyInt_eval_nonneg (show (0 : Int) ≤ 0 by norm_num)
      (show ((0 : Int) : Rat) ≤ 40 / ((42 : Nat) * 1) by norm_num) (by norm_num)]
    norm_num [ceilDiv]
  have f39 : fitsSize .horizontal 40 40 1 39 = false := by
    unfold fitsSize wrapCount
    rw [pyInt_eval_nonneg (show (0 : Int) ≤ 1 by norm_num)
      (show ((1 : Int) : Rat) ≤ 40 / ((39 : Nat) * 1) by norm_num) (by norm_num)]
    norm_num [ceilDiv]
  have f37 : fitsSize .horizontal 40 40 1 37 = true := by
    unfold fitsSize wrapCount
    rw [pyInt_eval_nonneg (show (0 : Int) ≤ 1 by norm_num)
      (show ((1 : Int) : Rat) ≤ 40 / ((37 : Nat) * 1) by norm_num) (by norm_num)]
    norm_num [ceilDiv]
  have f38 : fitsSize .horizontal 40 40 1 38 = true := by
    unfold fitsSize wrapCount
    rw [pyInt_eval_nonneg (show (0 : Int) ≤ 1 by norm_num)
      (show ((1 : Int) : Rat) ≤ 40 / ((38 : Nat) * 1) by norm_num) (by norm_num)]
    norm_num [ceilDiv]
  unfold calculateAutoFontSize
  rw [if_neg (by decide)]
  simp only [reduceCtorEq, if_false, List.length_singleton]
  rw [show ((40 : Int) : Rat) * 1 = 40 by norm_num,
    show (60 + 1 - 12 : Nat) = 49 by norm_num]
  simp [sizeLoop, f36, f48, f42, f39, f37, f38]

theorem font_size_eval_1600_1 :
    calculateAutoFontSize [Char.ofNat 97] 1600 1 .horizontal 12 60 1 = 12 := by
  have f36 : fitsSize .horizontal 1600 1 1 36 = false := by
    unfold fitsSize wrapCount
    rw [pyInt_eval_nonneg (show (0 : Int) ≤ 44 by norm_num)
      (show ((44 : Int) : Rat) ≤ 1600 / ((36 : Nat) * 1) by norm_num) (by norm_num)]
    norm_num [ceilDiv]
  have f23 : fitsSize .horizontal 1600 1 1 23 = false := by
    unfold fitsSize wrapCount
    rw [pyInt_eval_nonneg (show (0 : Int) ≤ 69 by norm_num)
      (show ((69 : Int) : Rat) ≤ 1600 / ((23 : Nat) * 1) by norm_num) (by norm_num)]
    norm_num [ceilDiv]
  have f17 : fitsSize .horizontal 1600 1 1 17 = false := by
    unfold fitsSize wrapCount
    rw [pyInt_eval_nonneg (show (0 : Int) ≤ 94 by norm_num)
      (show ((94 : Int) : Rat) ≤ 1600 / ((17 : Nat) * 1) by norm_num) (by norm_num)]
    norm_num [ceilDiv]
  have f14 : fitsSize .horizontal 1600 1 1 14 = false := by
    unfold fitsSize wrapCount
    rw [pyInt_eval_nonneg (show (0 : Int) ≤ 114 by norm_num)
      (show ((114 : Int) : Rat) ≤ 1600 / ((14 : Nat) * 1) by norm_num) (by norm_num)]
    norm_num [ceilDiv]
  have f12 : fitsSize .horizontal 1600 1 1 12 = false := by
    unfold fitsSize wrapCount
    rw [pyInt_eval_nonneg (show (0 : Int) ≤ 133 by norm_num)
      (show ((133 : Int) : Rat) ≤ 1600 / ((12 : Nat) * 1) by norm_num) (by norm_num)]
    norm_num [ceilDiv]
  unfold calculateAutoFontSize
  rw [if_neg (by decide)]
  simp only [reduceCtorEq, if_false, List.length_singleton]
  rw [show ((1600 : Int) : Rat) * 1 = 1600 by norm_num,
    show ((1 : Int) : Rat) * 1 = 1 by norm_num,
    show (60 + 1 - 12 : Nat) = 49 by norm_num]
  simp [sizeLoop, f36, f23, f17, f14, f12]

/-- Counterexample to C6 as frozen: the rectangle 1600 by 1 has area at
least that of the 40 by 40 rectangle (1600 each), yet for the one-character
text the selected size drops from 38 to the floor 12: the selection is not
monotone in the AREA alone. -/
theorem font_size_area_counterexample :
    (40 * 40 : Int) ≤ 1600 * 1 ∧
    calculateAutoFontSize [Char.ofNat 97] 1600 1 .horizontal 12 60 1 <
      calculateAutoFontSize [Char.ofNat 97] 40 40 .horizontal 12 60 1 := by
  refine ⟨by norm_num, ?_⟩
  rw [font_size_eval_40_40, font_size_eval_1600_1]
  norm_num

/-- Witness for C6 (amended) at concrete rectangles 40 by 40 and 41 by 41. -/
theorem font_size_mono_dims_witness :
    calculateAutoFontSize [Char.ofNat 97] 40 40 .horizontal 12 60 1 ≤
      calculateAutoFontSize [Char.ofNat 97] 41 41 .horizontal 12 60 1 :=
  font_size_mono_dims [Char.ofNat 97] .horizontal 40 40 41 41 12 60 1
    (by norm_num) (by norm_num) (by norm_num) (by norm_num) (by norm_num)

/-- C9: the guard returns the constant 30 for empty or whitespace-only text
or a non-positive rectangle dimension, whatever `[min_size, max_size]` the
caller passed; in every other case the result is at least `min_size`. -/
theorem font_size_guard_and_min (text : List Char) (bw bh : Int) (dir : TextDir)
    (minS maxS : Nat) (padding : Rat) :
    ((text.all Char.isWhitespace = true ∨ bw ≤ 0 ∨ bh ≤ 0) →
      calculateAutoFontSize text bw bh dir minS maxS padding = 30) ∧
    (¬(text.all Char.isWhitespace = true ∨ bw ≤ 0 ∨ bh ≤ 0) →
      minS ≤ calculateAutoFontSize text bw bh dir minS maxS padding) := by
  constructor
  · intro h
    unfold calculateAutoFontSize
    rw [if_pos h]
  · intro h
    unfold calculateAutoFontSize
    rw [if_neg h]
    exact le_max_left _ _

/-- Witness for C9: a negative width forces the constant 30 even though the
caller's range is `[40, 60]` (so 30 is out of range), and a positive
rectangle yields at least `min_size = 40`. -/
theorem font_size_guard_and_min_witness :
    calculateAutoFontSize [Char.ofNat 97] (-5) 10 .horizontal 40 60 1 = 30 ∧
    40 ≤ calculateAutoFontSize [Char.ofNat 97] 10 10 .horizontal 40 60 1 :=
  ⟨(font_size_guard_and_min [Char.ofNat 97] (-5) 10 .horizontal 40 60 1).1 (by decide),
   (font_size_guard_and_min [Char.ofNat 97] 10 10 .horizontal 40 60 1).2 (by decide)⟩

/-! ## Image-region pipeline (`core/image_translate.py`, `translate_image`)

An image is a grid of pixel values; `crop` and `paste` follow PIL's
rectangle convention (left/upper inclusive, right/lower exclusive; the paste
target is the rectangle's upper-left corner).  The layout detector, the
crop-then-OCR-then-extract step, the translator, OpenCV inpainting
(`clean(..., method="telea")`) and the text renderer are external
collaborators, modelled as oracle functions of the pipeline environment; a
`.error` result models a raised exception.  The `translate_image` recursion
on table boxes is depth-indexed by a fuel argument (Python recurses without
a bound; the fuel only caps nesting depth and never runs out on real
documents). -/

/-- An image: a list of pixel rows. -/
abbrev Img := List (List Nat)

/-- An integer rectangle `(x0, y0, x1, y1)` as built by
`region = (int(x0), int(y0), int(x1), int(y1))`. -/
structure IRect where
  x0 : Int
  y0 : Int
  x1 : Int
  y1 : Int
  deriving DecidableEq, Repr

/-- `region` built from a detector box by `int()` truncation. -/
def toIRect (b : DetBox) : IRect :=
  ⟨pyInt b.x0, pyInt b.y0, pyInt b.x1, pyInt b.y1⟩

/-- `image.crop((x0, y0, x1, y1))`. -/
def cropImg (img : Img) (r : IRect) : Img :=
  ((img.drop r.y0.toNat).take (r.y1.toNat - r.y0.toNat)).map
    (fun row => (row.drop r.x0.toNat).take (r.x1.toNat - r.x0.toNat))

/-- Overwrite `row[x0 + i]` with `sub[i]`, clipped to the row. -/
def pasteRow (row sub : List Nat) (x0 : Nat) : List Nat :=
  row.take x0 ++ sub.take (row.length - x0) ++ row.drop (x0 + sub.length)

/-- Rowwise paste: each sub-image row overwrites the matching image row. -/
def pasteRows (x0 : Nat) : List (List Nat) → List (List Nat) → List (List Nat)
  | rs, [] => rs
  | [], _ => []
  | r :: rs, s :: ss => pasteRow r s x0 :: pasteRows x0 rs ss

/-- `image.paste(sub, region)`: paste `sub` with its upper-left corner at
`(x0, y0)`. -/
def pasteImg (img sub : Img) (x0 y0 : Nat) : Img :=
  img.take y0 ++ pasteRows x0 (img.drop y0) sub

/-- Result of `config.translator.translate(text)`: a string, a value of a
different type (`unexpected return type`), or a raised exception. -/
inductive TransResult where
  | ok (s : List Char)
  | nonStr
  | exn
  deriving DecidableEq, Repr

/-- External collaborators of the pipeline: layout detector, the
crop-OCR-extract composite of the `try` block, the translator, inpainting
and the text renderer. -/
structure PipeEnv where
  layout : Img → Except Unit (List DetBox)
  ocrText : Img → Except Unit (List Char)
  translate : List Char → TransResult
  inpaint : Img → List IRect → Img
  draw : Img → IRect → List Char → Img

/-- The per-box loop of `translate_image`: table boxes (`cls == 5`) recurse
through `tr` and paste the result back (mutating the working image for later
boxes); other boxes run OCR and translation, where any failure or an
unchanged translation skips the box (`continue`), and a changed translation
records the region for cleaning and a draw job.  Returns the working image
together with `regions_to_clean` and `draw_jobs` in iteration order. -/
def processBoxes (tr : Img → Img) (env : PipeEnv) :
    List DetBox → Img → Img × List IRect × List (IRect × List Char)
  | [], img => (img, [], [])
  | b :: rest, img =>
    if b.cls = 5 then
      processBoxes tr env rest
        (pasteImg img (tr (cropImg img (toIRect b))) (toIRect b).x0.toNat (toIRect b).y0.toNat)
    else
      match env.ocrText (cropImg img (toIRect b)) with
      | .error _ => processBoxes tr env rest img
      | .ok srcText =>
        match if srcText = [] then TransResult.ok [] else env.translate srcText with
        | .exn => processBoxes tr env rest img
        | .nonStr => processBoxes tr env rest img
        | .ok t =>
          if t = srcText then processBoxes tr env rest img
          else
            ((processBoxes tr env rest img).1,
             toIRect b :: (processBoxes tr env rest img).2.1,
             (toIRect b, t) :: (processBoxes tr env rest img).2.2)

/-- `translate_image`: layout detection (an exception returns a copy of the
image), class filtering (everything but abandon/formula/formula-caption),
the containment filter, the per-box loop, then either a cheap copy when
nothing needs repaint or inpaint-and-redraw of the recorded regions. -/
def translateImage (env : PipeEnv) : Nat → Img → Img
  | 0, img => img
  | fuel + 1, img =>
    match env.layout img with
    | .error _ => img
    | .ok detected =>
      match processBoxes (translateImage env fuel) env
        (removeFullyContainedBoxes 2
          (detected.filter (fun b => ¬(b.cls = 2 ∨ b.cls = 8 ∨ b.cls = 9)))) img with
      | (img2, [], _) => img2
      | (img2, r :: rs, jobs) =>
        jobs.foldl (fun im j => if j.2 = [] then im else env.draw im j.1 j.2)
          (env.inpaint img2 (r :: rs))

theorem pasteRow_crop (row : List Nat) (x0 k : Nat) :
    pasteRow row ((row.drop x0).take k) x0 = row := by
  unfold pasteRow
  rw [List.take_take, List.length_take, List.length_drop, List.append_assoc,
    Nat.min_comm (row.length - x0) k, ← List.drop_drop, List.take_append_drop,
    List.take_append_drop]

theorem pasteRows_crop (a b : Nat) :
    ∀ (rs : List (List Nat)) (h : Nat),
      pasteRows a rs ((rs.take h).map (fun row => (row.drop a).take b)) = rs := by
  intro rs
  induction rs with
  | nil =>
    intro h
    cases h <;> rfl
  | cons r rest ih =>
    intro h
    cases h with
    | zero => rfl
    | succ h2 =>
      simp only [List.take_succ_cons, List.map_cons, pasteRows]
      rw [pasteRow_crop, ih h2]

/-- Pasting back a crop of the image at the crop's own corner restores the
image exactly. -/
theorem pasteImg_cropImg (img : Img) (r : IRect) :
    pasteImg img (cropImg img r) r.x0.toNat r.y0.toNat = img := by
  unfold pasteImg cropImg
  rw [pasteRows_crop, List.take_append_drop]

/-- Under an identity translator, the per-box loop records nothing and
leaves the working image unchanged. -/
theorem processBoxes_id (env : PipeEnv) (tr : Img → Img)
    (htr : ∀ s, env.translate s = TransResult.ok s) (htrid : ∀ x, tr x = x) :
    ∀ (boxes : List DetBox) (img : Img),
      processBoxes tr env boxes img = (img, [], []) := by
  intro boxes
  induction boxes with
  | nil => intro img; rfl
  | cons b rest ih =>
    intro img
    by_cases hcls : b.cls = 5
    · simp only [processBoxes, if_pos hcls, htrid, pasteImg_cropImg]
      exact ih img
    · cases hocr : env.ocrText (cropImg img (toIRect b)) with
      | error e =>
        simp only [processBoxes, if_neg hcls, hocr]
        exact ih img
      | ok srcText =>
        by_cases hsrc : srcText = []
        · simp only [processBoxes, if_neg hcls, hocr, if_pos hsrc, hsrc, if_pos rfl]
          exact ih img
        · simp only [processBoxes, if_neg hcls, hocr, if_neg hsrc, htr srcText,
            if_pos rfl]
          exact ih img

theorem translateImage_id (env : PipeEnv)
    (htr : ∀ s, env.translate s = TransResult.ok s) :
    ∀ (fuel : Nat) (img : Img), translateImage env fuel img = img := by
  intro fuel
  induction fuel with
  | zero => intro img; rfl
  | succ fuel ih =>
    intro img
    cases hlay : env.layout img with
    | error e => simp only [translateImage, hlay]
    | ok detected =>
      simp only [translateImage, hlay,
        processBoxes_id env (translateImage env fuel) htr ih]

/-- C4: when the translator returns every text unchanged (so no region ever
needs repaint), `translate_image` returns the input image unchanged
(byte-identical pixels), and running the pipeline twice returns the same
image both times. -/
theorem translate_image_noop_idempotent (env : PipeEnv)
    (htr : ∀ s, env.translate s = TransResult.ok s) (fuel : Nat) (img : Img) :
    translateImage env fuel img = img ∧
    translateImage env fuel (translateImage env fuel img) =
      translateImage env fuel img := by
  refine ⟨translateImage_id env htr fuel img, ?_⟩
  rw [translateImage_id env htr fuel img, translateImage_id env htr fuel img]

/-- A concrete pipeline environment with an identity translator, used by the
C4 witness. -/
def idPipeEnv : PipeEnv where
  layout := fun _ => .ok [⟨0, 0, 2, 2, 1⟩]
  ocrText := fun _ => .ok [Char.ofNat 104, Char.ofNat 105]
  translate := fun s => .ok s
  inpaint := fun im _ => im
  draw := fun im _ _ => im

/-- Witness for C4 on a concrete 2 by 2 image. -/
theorem translate_image_noop_idempotent_witness :
    translateImage idPipeEnv 3 [[1, 2], [3, 4]] = [[1, 2], [3, 4]] ∧
    translateImage idPipeEnv 3 (translateImage idPipeEnv 3 [[1, 2], [3, 4]]) =
      translateImage idPipeEnv 3 [[1, 2], [3, 4]] :=
  translate_image_noop_idempotent idPipeEnv (fun _ => rfl) 3 [[1, 2], [3, 4]]

/-- The region-scoped failure condition of the `translate_image` loop: the
box is not a table, and either the crop-OCR-extract `try` block raises, or
it yields a non-empty source text on which the translator raises or returns
a non-string. -/
def boxFails (env : PipeEnv) (img : Img) (b : DetBox) : Prop :=
  b.cls ≠ 5 ∧
  (env.ocrText (cropImg img (toIRect b)) = .error () ∨
   ∃ s, env.ocrText (cropImg img (toIRect b)) = .ok s ∧ s ≠ [] ∧
     (env.translate s = .exn ∨ env.translate s = .nonStr))

/-- C3: a box whose OCR or translation fails is skipped: it contributes no
inpaint region and no draw job, does not alter the working image, and the
remaining boxes are processed exactly as if the failed box were absent —
the failure never aborts the rest of the page. -/
theorem region_failure_isolated (env : PipeEnv) (tr : Img → Img) (b : DetBox)
    (rest : List DetBox) (img : Img) (hfail : boxFails env img b) :
    processBoxes tr env (b :: rest) img = processBoxes tr env rest img := by
  obtain ⟨hcls, hf⟩ := hfail
  rcases hf with hocr | ⟨s, hocr, hs, htrans⟩
  · simp only [processBoxes, if_neg hcls, hocr]
  · simp only [processBoxes, if_neg hcls, hocr, if_neg hs]
    rcases htrans with ht | ht <;> simp only [ht]

/-- A concrete environment whose OCR raises on every region, used by the C3
witness. -/
def ocrFailEnv : PipeEnv where
  layout := fun _ => .ok []
  ocrText := fun _ => .error ()
  translate := fun s => .ok s
  inpaint := fun im _ => im
  draw := fun im _ _ => im

/-- Witness for C3: with a failing OCR, a non-table box is skipped and the
remaining list is processed identically. -/
theorem region_failure_isolated_witness :
    processBoxes (fun im => im) ocrFailEnv
        [⟨0, 0, 1, 1, 0⟩, ⟨0, 0, 2, 2, 1⟩] [[5, 6], [7, 8]] =
      processBoxes (fun im => im) ocrFailEnv [⟨0, 0, 2, 2, 1⟩] [[5, 6], [7, 8]] :=
  region_failure_isolated ocrFailEnv (fun im => im) ⟨0, 0, 1, 1, 0⟩
    [⟨0, 0, 2, 2, 1⟩] [[5, 6], [7, 8]] ⟨by decide, Or.inl rfl⟩

/-! ## Line/paragraph composer
(`core/image_translate.py`, `_compose_text_with_linebreaks`)

OCR items as the composer consumes them: text, integer bbox and the line
bounding box assigned by `_group_items_into_lines` (`_line_bbox`, identical
for all items of one line; the composer reads it from the line's first
item).  Python strings are `List Char`; `str.strip()` and friends use
`Char.isWhitespace` (covering the space, tab, CR and LF characters that
occur in OCR output). -/

/-- An OCR fragment with the fields the composer reads. -/
structure OcrItem where
  text : List Char
  x0 : Int
  y0 : Int
  x1 : Int
  y1 : Int
  lineBbox : IRect
  deriving DecidableEq, Repr

/-- Placeholder for `ln[0]` access on (never-occurring) empty lines. -/
def defaultItem : OcrItem := ⟨[], 0, 0, 0, 0, ⟨0, 0, 0, 0⟩⟩

/-- Drop trailing characters satisfying `p` (`str.rstrip`-style). -/
def dropTrailingWhile (p : Char → Bool) (s : List Char) : List Char :=
  (s.reverse.dropWhile p).reverse

/-- `s.lstrip()`. -/
def pyStripLeft (s : List Char) : List Char := s.dropWhile Char.isWhitespace

/-- `s.rstrip()`. -/
def pyStripRight (s : List Char) : List Char := dropTrailingWhile Char.isWhitespace s

/-- `s.strip()`. -/
def pyStrip (s : List Char) : List Char := pyStripRight (pyStripLeft s)

/-- `s.rstrip(c)` for a single-character strip set. -/
def pyRstripChar (c : Char) (s : List Char) : List Char :=
  dropTrailingWhile (fun d => d = c) s

/-- `s[:1]`. -/
def take1 (s : List Char) : List Char := s.take 1

/-- `s[-1:]`. -/
def last1 (s : List Char) : List Char :=
  match s.getLast? with
  | some c => [c]
  | none => []

/-- Python `sub in s` for the at-most-one-character `sub` that occurs in the
composer: the empty string is a substring of every string. -/
def pyInStr (sub : List Char) (s : List Char) : Bool :=
  match sub with
  | [] => true
  | c :: _ => s.contains c

/-- Python `sub in aSet` for a set of one-character strings: exact string
membership (the empty string is NOT a member). -/
def pyInSet (sub : List Char) (set : List Char) : Bool :=
  match sub with
  | [c] => set.contains c
  | _ => false

/-- `_SENTENCE_END_PUNCT`. -/
def sentenceEndPunct : List Char := ['.', '!', '?', '。', '！', '？', '；', ';', ':']

/-- `_HYPHENS`. -/
def pyHyphens : List Char := ['-', '‐', '‑', '–']

/-- `_BULLETS`. -/
def pyBullets : List Char := ['•', '·', '-', '*', '◦', '▪', '‣', '⦿']

/-- `re.match(r"^[A-Za-z]", s)`: non-empty and starting with an ASCII
letter. -/
def startsLatin (s : List Char) : Bool :=
  match s with
  | c :: _ => c.isAlpha
  | [] => false

/-- One character of the CJK ranges of `is_cjk_text`. -/
def isCjkChar (c : Char) : Bool :=
  decide ((0x4e00 ≤ c.toNat ∧ c.toNat ≤ 0x9fff) ∨ (0x3400 ≤ c.toNat ∧ c.toNat ≤ 0x4dbf) ∨
    (0x3040 ≤ c.toNat ∧ c.toNat ≤ 0x30ff) ∨ (0xac00 ≤ c.toNat ∧ c.toNat ≤ 0xd7af))

/-- `is_cjk_text`: the text contains a CJK character. -/
def isCjkText (s : List Char) : Bool := s.any isCjkChar

/-- `is_wordy`: `^[A-Za-z0-9'’]+$`. -/
def isWordy (s : List Char) : Bool :=
  !s.isEmpty && s.all (fun c =>
    c.isAlpha || c.isDigit || c = Char.ofNat 39 || c = Char.ofNat 8217)

/-- The language codes treated as CJK: `{zh, zh-cn, zh-tw, ja, ko}`. -/
def cjkLangs : List (List Char) :=
  [['z', 'h'], ['z', 'h', '-', 'c', 'n'], ['z', 'h', '-', 't', 'w'], ['j', 'a'], ['k', 'o']]

/-- `(lang_in or "").lower() in {...}`. -/
def isCjkLangIn (langIn : Option (List Char)) : Bool :=
  cjkLangs.contains ((langIn.getD []).map Char.toLower)

/-- `statistics.median`: sort, take the middle element (odd length) or the
mean of the two middle elements (even length). -/
def pyMedian (l : List Rat) : Rat :=
  if (l.insertionSort (fun a b => a ≤ b)).length % 2 = 1 then
    (l.insertionSort (fun a b => a ≤ b)).getD
      ((l.insertionSort (fun a b => a ≤ b)).length / 2) 0
  else
    ((l.insertionSort (fun a b => a ≤ b)).getD
        ((l.insertionSort (fun a b => a ≤ b)).length / 2 - 1) 0 +
      (l.insertionSort (fun a b => a ≤ b)).getD
        ((l.insertionSort (fun a b => a ≤ b)).length / 2) 0) / 2

/-- The `para_gap_multiplier / indent_multiplier / word_gap_multiplier`
entries of the optional tuning dict. -/
structure ComposeTuning where
  paraGapMultiplier : Rat
  indentMultiplier : Rat
  wordGapMultiplier : Rat
  deriving DecidableEq, Repr

/-- `tuning.get("para_gap_multiplier", 1.2)` with the `isinstance` guard. -/
def tunePara (t : Option ComposeTuning) : Rat :=
  match t with
  | some u => u.paraGapMultiplier
  | none => 6 / 5

/-- `tuning.get("indent_multiplier", 0.8)`. -/
def tuneIndent (t : Option ComposeTuning) : Rat :=
  match t with
  | some u => u.indentMultiplier
  | none => 4 / 5

/-- `tuning.get("word_gap_multiplier", 0.3)`. -/
def tuneWordGap (t : Option ComposeTuning) : Rat :=
  match t with
  | some u => u.wordGapMultiplier
  | none => 3 / 10

/-- The `idx >= 1` iterations of `compose_single_line`: each step reads the
previous token, the last emitted part (`out_parts[-1]`) and the horizontal
gap, and decides hyphen-merge, no-space punctuation/bracket joins,
small-gap word merges, or a space join.  `accRev` holds `out_parts` in
reverse (head = last part). -/
def singleLineJoin (gapT : Rat) : OcrItem → List OcrItem → List (List Char) → List (List Char)
  | _, [], accRev => accRev
  | prev, cur :: rest, accRev =>
    if pyInSet (last1 (accRev.headD [])) pyHyphens && startsLatin (take1 (pyStrip cur.text)) then
      singleLineJoin gapT cur rest
        ((pyRstripChar ((accRev.headD []).getLastD ' ') (accRev.headD []) ++ pyStrip cur.text)
          :: accRev.tail)
    else if pyInStr (take1 (pyStrip cur.text)) [',', '.', ';', ':', '!', '?', ')'] ||
        pyInSet (take1 (pyStrip cur.text)) sentenceEndPunct then
      singleLineJoin gapT cur rest (pyStrip cur.text :: accRev)
    else if pyInStr (last1 (accRev.headD [])) ['(', '[', '{'] ||
        decide (last1 (accRev.headD []) = ['“']) then
      singleLineJoin gapT cur rest (pyStrip cur.text :: accRev)
    else if isWordy (pyStrip prev.text) && isWordy (pyStrip cur.text) &&
        decide (((cur.x0 - prev.x1 : Int) : Rat) ≤ gapT) then
      singleLineJoin gapT cur rest (pyStrip cur.text :: accRev)
    else
      singleLineJoin gapT cur rest ((' ' :: pyStrip cur.text) :: accRev)

/-- `compose_single_line`: tokens with non-empty text; CJK lines concatenate
directly; Latin lines run the gap-aware join with threshold
`max(1.0, median(token heights) * word_gap_multiplier)`.  (The code's
`median(heights) if heights else h_med` fallback is unreachable: `tokens`
is non-empty in this branch, so `heights` is too.) -/
def composeSingleLine (isCjkLang : Bool) (wordGapMult : Rat) (ln : List OcrItem) : List Char :=
  match ln.filter (fun d => !d.text.isEmpty) with
  | [] => []
  | t0 :: rest =>
    if isCjkLang || isCjkText (((t0 :: rest).map (fun t => pyStrip t.text)).flatten) then
      ((t0 :: rest).map (fun t => pyStrip t.text)).flatten
    else
      (singleLineJoin
        (max 1 (pyMedian ((t0 :: rest).map
          (fun d => ((max 1 (d.y1 - d.y0) : Int) : Rat))) * wordGapMult))
        t0 rest [pyStrip t0.text]).reverse.flatten

/-- `next_bbox[1] - curr_bbox[3]`: top of the next line minus bottom of the
current line, read from the lines' first items. -/
def lineGap (l1 l2 : List OcrItem) : Int :=
  (l2.headD defaultItem).lineBbox.y0 - (l1.headD defaultItem).lineBbox.y1

/-- `next_bbox[0] - curr_bbox[0]`. -/
def lineIndent (l1 l2 : List OcrItem) : Int :=
  (l2.headD defaultItem).lineBbox.x0 - (l1.headD defaultItem).lineBbox.x0

/-- `re.match(r"^\s*([\-\*•])\s+", next_text)`: optional leading
whitespace, a bullet glyph, then at least one whitespace character. -/
def bulletRegexMatch (s : List Char) : Bool :=
  match s.dropWhile Char.isWhitespace with
  | c :: d :: _ => decide (c = '-' ∨ c = '*' ∨ c = '•') && d.isWhitespace
  | _ => false

/-- `curr_last_char = lt.rstrip()[-1:] if lt else ""`. -/
def lastOfRstrip (t : List Char) : List Char :=
  if t.isEmpty then [] else last1 (pyStripRight t)

/-- The across-lines loop of `_compose_text_with_linebreaks`, over the list
of `(line, line_text)` pairs: emits each line text followed by the decided
separator — a hard newline on a paragraph gap / bullet / indent, the
hyphen-repair merge (which emits the lstripped next text immediately; the
next iteration emits that line's text again, exactly as the Python loop's
`continue` does), a newline after sentence-ending punctuation, no separator
for CJK, and a space otherwise. -/
def composeLoop (isCjkLang : Bool) (paraGapT hMed indentMult : Rat) :
    List (List OcrItem × List Char) → List (List Char)
  | [] => []
  | [(_, lt)] => [lt]
  | (l1, t1) :: (l2, t2) :: rest =>
    if decide (((lineGap l1 l2 : Int) : Rat) ≥ paraGapT) ||
        (pyInSet (take1 (pyStripLeft t2)) pyBullets || bulletRegexMatch (pyStripLeft t2)) ||
        decide (((lineIndent l1 l2 : Int) : Rat) > hMed * indentMult) then
      t1 :: ['\n'] :: composeLoop isCjkLang paraGapT hMed indentMult ((l2, t2) :: rest)
    else if pyInSet (lastOfRstrip t1) pyHyphens && startsLatin (pyStripLeft t2) then
      pyRstripChar ((pyStripRight t1).getLastD ' ') t1 :: pyStripLeft t2 ::
        composeLoop isCjkLang paraGapT hMed indentMult ((l2, t2) :: rest)
    else if pyInSet (lastOfRstrip t1) sentenceEndPunct then
      t1 :: ['\n'] :: composeLoop isCjkLang paraGapT hMed indentMult ((l2, t2) :: rest)
    else if isCjkLang || isCjkText (t1 ++ pyStripLeft t2) then
      t1 :: [] :: composeLoop isCjkLang paraGapT hMed indentMult ((l2, t2) :: rest)
    else
      t1 :: [' '] :: composeLoop isCjkLang paraGapT hMed indentMult ((l2, t2) :: rest)

/-- `line_heights` medians: `median([max(1, bbox.y1 - bbox.y0) ...])` with
the 16 fallback for an empty list. -/
def hMedOf (lines : List (List OcrItem)) : Rat :=
  if lines.isEmpty then 16
  else pyMedian (lines.map (fun ln =>
    ((max 1 ((ln.headD defaultItem).lineBbox.y1 - (ln.headD defaultItem).lineBbox.y0)
      : Int) : Rat)))

/-- `_compose_text_with_linebreaks(lines, lang_in, tuning)`. -/
def composeTextWithLinebreaks (lines : List (List OcrItem)) (langIn : Option (List Char))
    (tuning : Option ComposeTuning) : List Char :=
  if lines.isEmpty then []
  else
    (composeLoop (isCjkLangIn langIn) (max 8 (hMedOf lines * tunePara tuning))
      (hMedOf lines) (tuneIndent tuning)
      (lines.zip (lines.map
        (composeSingleLine (isCjkLangIn langIn) (tuneWordGap tuning))))).flatten

/-- C7 (amended): in smart composition with default tuning, a hard newline
is inserted between two consecutive composed lines whenever the vertical
gap between them is at least the paragraph threshold
`max(8, 1.2 * median_line_height)` — the code's threshold has an 8-pixel
floor, so a gap merely exceeding `1.2 * median` does not suffice. -/
theorem paragraph_gap_forces_newline (isCjkLang : Bool) (hMed indentMult : Rat)
    (l1 l2 : List OcrItem) (t1 t2 : List Char) (rest : List (List OcrItem × List Char))
    (hgap : max 8 (hMed * (6 / 5)) ≤ ((lineGap l1 l2 : Int) : Rat)) :
    composeLoop isCjkLang (max 8 (hMed * (6 / 5))) hMed indentMult
        ((l1, t1) :: (l2, t2) :: rest) =
      t1 :: ['\n'] :: composeLoop isCjkLang (max 8 (hMed * (6 / 5))) hMed indentMult
        ((l2, t2) :: rest) := by
  have hd : decide (((lineGap l1 l2 : Int) : Rat) ≥ max 8 (hMed * (6 / 5))) = true :=
    decide_eq_true hgap
  simp only [composeLoop, hd, Bool.true_or, if_true]

/-- Two single-item lines with line height 10 and a 20-pixel gap. -/
def c7wLine1 : List OcrItem := [⟨['f', 'o', 'o'], 0, 0, 50, 10, ⟨0, 0, 50, 10⟩⟩]

/-- Second line of the C7 witness data. -/
def c7wLine2 : List OcrItem := [⟨['b', 'a', 'r'], 0, 30, 50, 40, ⟨0, 30, 50, 40⟩⟩]

/-- Witness for C7 (amended): a 20-pixel gap at median height 10 (threshold
`max(8, 12) = 12`) forces the newline separator. -/
theorem paragraph_gap_forces_newline_witness :
    composeLoop false (max 8 (10 * (6 / 5))) 10 (4 / 5)
        [(c7wLine1, ['f', 'o', 'o']), (c7wLine2, ['b', 'a', 'r'])] =
      ['f', 'o', 'o'] :: ['\n'] :: composeLoop false (max 8 (10 * (6 / 5))) 10 (4 / 5)
        [(c7wLine2, ['b', 'a', 'r'])] :=
  paragraph_gap_forces_newline false 10 (4 / 5) c7wLine1 c7wLine2
    ['f', 'o', 'o'] ['b', 'a', 'r'] []
    (by norm_num [lineGap, c7wLine1, c7wLine2, defaultItem])

/-- Two single-item lines of height 3 with a 5-pixel gap: the gap exceeds
`1.2 * median = 3.6` but stays below the 8-pixel floor. -/
def c7line1 : List OcrItem := [⟨['f', 'o', 'o'], 0, 0, 10, 3, ⟨0, 0, 10, 3⟩⟩]

/-- Second line of the C7 counterexample data. -/
def c7line2 : List OcrItem := [⟨['b', 'a', 'r'], 0, 8, 10, 11, ⟨0, 8, 10, 11⟩⟩]

/-- Counterexample to C7 as frozen: the gap (5) strictly exceeds
`1.2 * median_line_height = 3.6`, yet the composed text joins the two lines
with a space instead of a hard newline, because the code's threshold is
`max(8, 1.2 * median) = 8`. -/
theorem paragraph_gap_below_8px_counterexample :
    tunePara none * hMedOf [c7line1, c7line2] < ((lineGap c7line1 c7line2 : Int) : Rat) ∧
    composeTextWithLinebreaks [c7line1, c7line2] none none =
      ['f', 'o', 'o', ' ', 'b', 'a', 'r'] := by
  constructor
  · norm_num [tunePara, hMedOf, pyMedian, lineGap, c7line1, c7line2, defaultItem,
      List.insertionSort, List.orderedInsert]
  · norm_num [composeTextWithLinebreaks, composeLoop, composeSingleLine, singleLineJoin,
      c7line1, c7line2, defaultItem, hMedOf, pyMedian, tunePara, tuneIndent, tuneWordGap,
      isCjkLangIn, cjkLangs, isCjkText, isCjkChar, lineGap, lineIndent, pyInSet, pyInStr,
      pyBullets, pyHyphens, sentenceEndPunct, bulletRegexMatch, lastOfRstrip, startsLatin,
      take1, last1, pyStrip, pyStripLeft, pyStripRight, pyRstripChar, dropTrailingWhile,
      List.insertionSort, List.orderedInsert, Char.isWhitespace]
    decide

/-- A hyphen-ending line followed by its continuation. -/
def c8line1 : List OcrItem := [⟨['e', 'x', 'a', 'm', '-'], 0, 0, 50, 10, ⟨0, 0, 50, 10⟩⟩]

/-- Continuation line of the C8 failing input. -/
def c8line2 : List OcrItem := [⟨['p', 'l', 'e'], 0, 12, 30, 22, ⟨0, 12, 30, 22⟩⟩]

/-- C8 evaluated at the failing input: the hyphen branch strips the hyphen
and appends the continuation text, but then `continue`s into the next
iteration, which appends the same line text again — the continuation
appears TWICE and the composed output is `exampleple`, not `example`. -/
theorem hyphen_join_duplicates_continuation :
    composeTextWithLinebreaks [c8line1, c8line2] none none =
      ['e', 'x', 'a', 'm', 'p', 'l', 'e', 'p', 'l', 'e'] := by
  norm_num [composeTextWithLinebreaks, composeLoop, composeSingleLine, singleLineJoin,
    c8line1, c8line2, defaultItem, hMedOf, pyMedian, tunePara, tuneIndent, tuneWordGap,
    isCjkLangIn, cjkLangs, isCjkText, isCjkChar, lineGap, lineIndent, pyInSet, pyInStr,
    pyBullets, pyHyphens, sentenceEndPunct, bulletRegexMatch, lastOfRstrip, startsLatin,
    take1, last1, pyStrip, pyStripLeft, pyStripRight, pyRstripChar, dropTrailingWhile,
    List.insertionSort, List.orderedInsert, Char.isWhitespace]
  decide

end PdfTranslate
